import Mathlib

/-!
Verification of the evaluation-run orchestrator of the ai-judge repository
(`src/backend/index.js`, the `POST /api/run-judges` handler) against its
natural-language specification.

The JavaScript handler is embedded shallowly:

* strings are `List Char` / `String`;
* the two global regex replaces `.replace(/```json/gi, "")` and
  `.replace(/```/g, "")` are modelled by `removeAll`, a single left-to-right
  non-overlapping scan deleting every match, exactly as a global regex
  replace with an empty replacement behaves;
* `JSON.parse` is an external platform primitive, so the orchestrator is
  parameterised by a parse oracle `JsonParser`; JavaScript truthiness of the
  parsed fields is modelled by `truthy` over a small JS value type;
* the Gemini call and the Supabase insert are external effects, modelled by
  oracles indexed by the per-run call counter; thrown Gemini errors carry the
  optional numeric `status` and the string produced by
  `String(err?.message || err || "")`;
* the run-local mutable state (`planned`, `completed`, `failed`,
  `runWarnings`, the rows inserted, the store effects issued, the number of
  Gateway calls made) is threaded explicitly through folds that mirror the
  three nested `for` loops.
-/

namespace AiJudge

/-! ### Characters, fence patterns, and the global regex replace -/

/-- The backtick character, U+0060. -/
def tick : Char := Char.ofNat 96

/-- Matches exactly a backtick (the case-insensitive flag does not affect it). -/
def matchTick (c : Char) : Bool := c = tick

/-- Case-insensitive match of one lowercase letter, as the `i` regex flag does. -/
def matchCI (l c : Char) : Bool := c = l || c = l.toUpper

/-- One pattern position of a regex literal: a predicate on the next char. -/
abbrev CPat := Char → Bool

/-- Try to match the pattern at the head of the input; on success return the
remaining input after the match. -/
def dropMatch : List CPat → List Char → Option (List Char)
  | [], s => some s
  | _ :: _, [] => none
  | p :: ps, c :: cs => if p c then dropMatch ps cs else none

/-- Fuelled left-to-right scan deleting every non-overlapping match of the
pattern `p :: ps`, as a global regex replace with replacement `""` does. -/
def scanRm (p : CPat) (ps : List CPat) : Nat → List Char → List Char
  | _, [] => []
  | 0, c :: cs => c :: cs
  | fuel+1, c :: cs =>
    match dropMatch (p :: ps) (c :: cs) with
    | some rest => scanRm p ps fuel rest
    | none => c :: scanRm p ps fuel cs

/-- Delete every non-overlapping occurrence of the pattern, scanning left to
right: the semantics of `.replace(/pat/g, "")`. -/
def removeAll (p : CPat) (ps : List CPat) (s : List Char) : List Char :=
  scanRm p ps s.length s

/-- Tail of the pattern of `/```json/gi`: two more backticks then `json`
case-insensitively (the head backtick is passed separately). -/
def jsonFenceTail : List CPat :=
  [matchTick, matchTick, matchCI (Char.ofNat 106), matchCI (Char.ofNat 115),
   matchCI (Char.ofNat 111), matchCI (Char.ofNat 110)]

/-- Tail of the pattern of `/```/g`. -/
def bareFenceTail : List CPat := [matchTick, matchTick]

/-- Whitespace as trimmed by `String.prototype.trim`. -/
def isWs (c : Char) : Bool := c.isWhitespace

/-- `.trim()`: drop whitespace from both ends. -/
def trimCh (s : List Char) : List Char :=
  ((s.dropWhile isWs).reverse.dropWhile isWs).reverse

/-- The sanitisation of the raw Gemini text (index.js lines 233-237):
`raw.replace(/```json/gi, "").replace(/```/g, "").trim()`. -/
def cleanedOf (raw : List Char) : List Char :=
  trimCh (removeAll matchTick bareFenceTail (removeAll matchTick jsonFenceTail raw))

/-! ### JavaScript values, truthiness, and the JSON parse oracle -/

/-- A JavaScript value as far as the handler inspects one. -/
inductive JsVal where
  | vStr (s : String)
  | vNum (n : Int)
  | vBool (b : Bool)
  | vNull
  | vObj
  | vArr
deriving DecidableEq

/-- JavaScript truthiness of a present value. -/
def truthy : JsVal → Bool
  | .vStr s => s ≠ ""
  | .vNum n => n ≠ 0
  | .vBool b => b
  | .vNull => false
  | .vObj => true
  | .vArr => true

/-- Truthiness of a possibly absent (`undefined`) field. -/
def truthyOpt : Option JsVal → Bool
  | none => false
  | some v => truthy v

/-- What the handler destructures out of `JSON.parse`'s result:
the `verdict` and `reasoning` properties, each possibly absent. -/
structure ParsedObj where
  verdict : Option JsVal
  reasoning : Option JsVal
deriving DecidableEq

/-- The external `JSON.parse`: `none` models a parse exception. -/
abbrev JsonParser := List Char → Option ParsedObj

/-! ### Case-insensitive substring search used by the error classifiers -/

/-- Lowercase the characters of a string, as `.toLowerCase()` does. -/
def lowerList (s : String) : List Char := s.toList.map Char.toLower

/-- Does the pattern occur at the head of the input? -/
def headMatches : List Char → List Char → Bool
  | [], _ => true
  | _ :: _, [] => false
  | p :: ps, c :: cs => p = c && headMatches ps cs

/-- Does the pattern occur anywhere in the input (`String.prototype.includes`)? -/
def occursIn (pat : List Char) : List Char → Bool
  | [] => pat.isEmpty
  | c :: cs => headMatches pat (c :: cs) || occursIn pat cs

/-! ### The two error classifiers of index.js -/

/-- `classifyGeminiError` (index.js lines 61-75), applied to the string
`String(err?.message || err || "")` of the caught error; used only by the
outer catch-all of the handler to build the 500-response hint. -/
def classifyGeminiError (message : String) : String :=
  let msg := lowerList message
  if occursIn "quota".toList msg || occursIn "rate limit".toList msg then
    "LLM quota or rate limit exceeded."
  else if occursIn "permission".toList msg || occursIn "unauthorized".toList msg then
    "LLM credentials or permissions issue."
  else if occursIn "deadline".toList msg || occursIn "timeout".toList msg then
    "LLM request timed out."
  else
    "LLM call failed."

/-- The quota/rate-limit test of the per-unit catch block
(index.js lines 287-292): `err?.status === 429` or the lowercased message
contains one of three markers. -/
def quotaCond (status : Option Nat) (message : String) : Bool :=
  status == some 429 ||
  occursIn "quota".toList (lowerList message) ||
  occursIn "rate limit".toList (lowerList message) ||
  occursIn "resource_exhausted".toList (lowerList message)

/-! ### Warning strings added to `runWarnings` -/

def emptyRespW : String :=
  "Received an empty response from the LLM for at least one evaluation."

def parseFailW : String :=
  "At least one LLM response could not be parsed as JSON."

def invalidVerdictW : String :=
  "At least one LLM response did not include a valid verdict or reasoning."

def saveFailW : String :=
  "At least one evaluation could not be saved to the database."

def quotaW : String :=
  "LLM quota or rate limit exceeded. Some evaluations were skipped."

def llmFailW : String :=
  "One or more LLM calls failed. Check backend logs for details."

/-! ### The data model, as the handler reads it from the record store -/

structure Submission where
  id : Nat
deriving DecidableEq

structure Question where
  id : Nat
  question_text : String
deriving DecidableEq

structure Answer where
  submission_id : Nat
  question_id : Nat
  choice : Option String
  reasoning : Option String
deriving DecidableEq

structure Judge where
  id : Nat
  system_prompt : String
  model_name : Option String
  active : Option Bool
deriving DecidableEq

/-- A `question_judges` row with its joined judge (the join may miss). -/
structure QJRow where
  id : Nat
  question_id : Nat
  judge_id : Nat
  judges : Option Judge
deriving DecidableEq

/-- The four reads the handler performs, as loaded lists. -/
structure StoreData where
  submissions : List Submission
  questions : List Question
  answers : List Answer
  question_judges : List QJRow
deriving DecidableEq

/-- A persisted evaluation row. -/
structure EvalRow where
  submission_id : Nat
  question_id : Nat
  judge_id : Nat
  verdict : JsVal
  reasoning : JsVal
  created_at : String
deriving DecidableEq

/-- A record-store operation issued by the handler. -/
inductive Effect where
  | readTab (table : String)
  | insertTab (table : String) (row : EvalRow)
deriving DecidableEq

/-! ### Prompt and model resolution -/

def DEFAULT_GEMINI_MODEL : String := "gemini-2.5-flash"

/-- `buildPrompt` (index.js lines 40-56); `??` on the optional fields. -/
def buildPrompt (systemPrompt questionText : String)
    (choice reasoning : Option String) : String :=
  "\nSYSTEM:\n" ++ systemPrompt ++ "\n\nUSER:\nQuestion: " ++ questionText ++
  "\nChoice: " ++ choice.getD "N/A" ++ "\nReasoning: " ++ reasoning.getD "N/A" ++
  "\n\nReturn JSON exactly in this format:\n\x7b\n  \"verdict\": \"pass\" | \"fail\" | \"inconclusive\",\n  \"reasoning\": \"short explanation\"\n\x7d\n"

/-- `judge.model_name || DEFAULT_GEMINI_MODEL`: empty or absent falls back. -/
def resolveModel (j : Judge) : String :=
  match j.model_name with
  | some s => if s = "" then DEFAULT_GEMINI_MODEL else s
  | none => DEFAULT_GEMINI_MODEL

/-! ### The Gateway and insert oracles -/

structure LlmRequest where
  model : String
  prompt : String
deriving DecidableEq

/-- One Gateway call outcome: a thrown error (with optional numeric status
and the derived message string), or a response whose first-candidate text is
possibly absent. -/
inductive GatewayOutcome where
  | throws (status : Option Nat) (message : String)
  | returns (text : Option String)
deriving DecidableEq

/-! ### One unit of work -/

/-- Result of one unit of work: an evaluation row inserted successfully, an
insert attempted but refused by the store, or a failure before any insert. -/
inductive UnitOutcome where
  | success (row : EvalRow)
  | saveFailed (row : EvalRow)
  | failure (warning : String)
deriving DecidableEq

/-- The body of the per-unit `try`/`catch` (index.js lines 208-301), after
the Gateway call outcome is known: extract and trim the text, strip fences,
parse, validate truthiness of both fields, and attempt the insert. -/
def processUnit (pj : JsonParser) (oc : GatewayOutcome) (insOk : Bool)
    (sid qid jid : Nat) (now : String) : UnitOutcome :=
  match oc with
  | .throws status message =>
    .failure (if quotaCond status message then quotaW else llmFailW)
  | .returns text =>
    match text with
    | none => .failure emptyRespW
    | some t =>
      if trimCh t.toList = [] then .failure emptyRespW
      else
        match pj (cleanedOf (trimCh t.toList)) with
        | none => .failure parseFailW
        | some obj =>
          match obj.verdict, obj.reasoning with
          | some v, some r =>
            if truthy v && truthy r then
              if insOk then .success ⟨sid, qid, jid, v, r, now⟩
              else .saveFailed ⟨sid, qid, jid, v, r, now⟩
            else .failure invalidVerdictW
          | some _, none => .failure invalidVerdictW
          | none, _ => .failure invalidVerdictW

/-! ### The run-local state and the three nested loops -/

/-- The run-local mutable state of the handler. -/
structure LoopState where
  planned : Nat
  completed : Nat
  failed : Nat
  warnings : List String
  evals : List EvalRow
  effects : List Effect
  calls : Nat
deriving DecidableEq

def initState : LoopState := ⟨0, 0, 0, [], [], [], 0⟩

/-- `runWarnings.add`: a `Set` keeps insertion order and drops duplicates. -/
def addWarning (ws : List String) (w : String) : List String :=
  if w ∈ ws then ws else ws ++ [w]

/-- Fold one unit outcome into the counters, warning set, rows and effects. -/
def applyOutcome (st : LoopState) : UnitOutcome → LoopState
  | .success row =>
    { st with completed := st.completed + 1,
              evals := st.evals ++ [row],
              effects := st.effects ++ [.insertTab "evaluations" row] }
  | .saveFailed row =>
    { st with failed := st.failed + 1,
              warnings := addWarning st.warnings saveFailW,
              effects := st.effects ++ [.insertTab "evaluations" row] }
  | .failure w =>
    { st with failed := st.failed + 1,
              warnings := addWarning st.warnings w }

/-- Skip test of index.js line 197: `!judge || judge.active === false`.
`keepJudge` holds when the joined judge exists and its `active` flag is not
strictly equal to `false` (an absent flag keeps the judge active). -/
def keepJudge (x : QJRow) : Bool :=
  match x.judges with
  | none => false
  | some j => !(j.active == some false)

/-- The innermost loop body (index.js lines 195-302): one assignment. -/
def stepAssignment (pj : JsonParser) (env : Nat → LlmRequest → GatewayOutcome)
    (insEnv : Nat → Bool) (now : String)
    (sub : Submission) (q : Question) (ans : Answer)
    (st : LoopState) (x : QJRow) : LoopState :=
  match x.judges with
  | none => st
  | some judge =>
    if judge.active == some false then st
    else
      let req : LlmRequest :=
        ⟨resolveModel judge,
         buildPrompt judge.system_prompt q.question_text ans.choice ans.reasoning⟩
      let oc := env st.calls req
      let insOk := insEnv st.calls
      let st1 := { st with planned := st.planned + 1, calls := st.calls + 1 }
      applyOutcome st1 (processUnit pj oc insOk sub.id q.id judge.id now)

/-- The middle loop body (index.js lines 183-303): one question — filter the
assignments to this question, find the answer, and run each assignment. -/
def stepQuestion (pj : JsonParser) (env : Nat → LlmRequest → GatewayOutcome)
    (insEnv : Nat → Bool) (now : String)
    (answers : List Answer) (qj : List QJRow)
    (sub : Submission) (st : LoopState) (q : Question) : LoopState :=
  let assigned := qj.filter (fun x => x.question_id == q.id)
  match answers.find? (fun a => a.submission_id == sub.id && a.question_id == q.id) with
  | none => st
  | some ans => assigned.foldl (stepAssignment pj env insEnv now sub q ans) st

/-- The outer loop body (index.js line 182): one submission. -/
def stepSubmission (pj : JsonParser) (env : Nat → LlmRequest → GatewayOutcome)
    (insEnv : Nat → Bool) (now : String)
    (questions : List Question) (answers : List Answer) (qj : List QJRow)
    (st : LoopState) (sub : Submission) : LoopState :=
  questions.foldl (stepQuestion pj env insEnv now answers qj sub) st

/-- The full evaluation loop over the plan (index.js lines 174-304). -/
def runUnits (pj : JsonParser) (env : Nat → LlmRequest → GatewayOutcome)
    (insEnv : Nat → Bool) (now : String)
    (subs : List Submission) (questions : List Question)
    (answers : List Answer) (qj : List QJRow) : LoopState :=
  subs.foldl (stepSubmission pj env insEnv now questions answers qj) initState

/-! ### The whole run -/

structure RunSummary where
  planned : Nat
  completed : Nat
  failed : Nat
  note : Option String
  warnings : List String
deriving DecidableEq

/-- Everything observable about one run: the JSON summary returned, the rows
persisted, the store operations issued, and the number of Gateway calls. -/
structure RunResult where
  summary : RunSummary
  evals : List EvalRow
  effects : List Effect
  gwCalls : Nat
deriving DecidableEq

def noteMsg : String :=
  "Nothing to evaluate: ensure submissions, questions, and judge assignments exist for this queue."

/-- The reads the handler issues while loading the plan (index.js lines
91-152): the `answers` read is skipped when there are no submissions. -/
def loadEffectsOf (store : StoreData) : List Effect :=
  [.readTab "submissions", .readTab "questions"] ++
  (if store.submissions.isEmpty then [] else [.readTab "answers"]) ++
  [.readTab "question_judges"]

/-- The body of the `try` block of the handler (index.js lines 89-315) after
the four reads succeed: the short-circuit on an empty collection, else the
evaluation loop. -/
def runJudges (pj : JsonParser) (env : Nat → LlmRequest → GatewayOutcome)
    (insEnv : Nat → Bool) (now : String) (store : StoreData) : RunResult :=
  if store.submissions.isEmpty || store.questions.isEmpty ||
      store.question_judges.isEmpty then
    { summary := ⟨0, 0, 0, some noteMsg, []⟩, evals := [],
      effects := loadEffectsOf store, gwCalls := 0 }
  else
    { summary := ⟨(runUnits pj env insEnv now store.submissions store.questions
          store.answers store.question_judges).planned,
        (runUnits pj env insEnv now store.submissions store.questions
          store.answers store.question_judges).completed,
        (runUnits pj env insEnv now store.submissions store.questions
          store.answers store.question_judges).failed, none,
        (runUnits pj env insEnv now store.submissions store.questions
          store.answers store.question_judges).warnings⟩,
      evals := (runUnits pj env insEnv now store.submissions store.questions
        store.answers store.question_judges).evals,
      effects := loadEffectsOf store ++
        (runUnits pj env insEnv now store.submissions store.questions
          store.answers store.question_judges).effects,
      gwCalls := (runUnits pj env insEnv now store.submissions store.questions
        store.answers store.question_judges).calls }

/-- Loading the plan either yields the four collections or throws a store
read error carrying a message. -/
inductive LoadResult where
  | ok (store : StoreData)
  | readError (message : String)

/-- The three response shapes of `POST /api/run-judges`. -/
inductive HandlerResult where
  | badRequest (error : String)
  | serverError (error hint : String)
  | okResponse (summary : RunSummary)
deriving DecidableEq

/-- The whole endpoint (index.js lines 80-327): reject a falsy `queueId`
with 400; a plan-phase read error aborts with 500 and the classified hint;
otherwise run the loop and return the summary. -/
def handler (queueId : Option String) (load : LoadResult) (pj : JsonParser)
    (env : Nat → LlmRequest → GatewayOutcome) (insEnv : Nat → Bool)
    (now : String) : HandlerResult :=
  match queueId with
  | none => .badRequest "Missing queueId"
  | some qid =>
    if qid = "" then .badRequest "Missing queueId"
    else
      match load with
      | .readError msg =>
        .serverError "Internal error running judges" (classifyGeminiError msg)
      | .ok store => .okResponse (runJudges pj env insEnv now store).summary

/-- The number of units the plan-expansion loops produce: for every
submission and question with a found answer, the assignments to that
question whose joined judge is kept. -/
def plannedCount (subs : List Submission) (questions : List Question)
    (answers : List Answer) (qj : List QJRow) : Nat :=
  (subs.map (fun sub =>
    (questions.map (fun q =>
      match answers.find? (fun a => a.submission_id == sub.id && a.question_id == q.id) with
      | none => 0
      | some _ => ((qj.filter (fun x => x.question_id == q.id)).filter keepJudge).length)).sum)).sum

/-! ### Auxiliary predicates on effects -/

/-- An effect respects the frame when it is a read, or an insert into the
evaluations collection. -/
def effectFrameOk : Effect → Bool
  | .readTab _ => true
  | .insertTab t _ => t == "evaluations"

/-- An effect that reads and never writes. -/
def isReadEffect : Effect → Bool
  | .readTab _ => true
  | .insertTab _ _ => false

/-! ### Fence-marker segments used to state the sanitisation claims -/

/-- The three-backtick marker deleted by `/```/g`. -/
def ticks3 : List Char := [tick, tick, tick]

/-- The literal text matched by `/```json/i` in its lowercase form,
followed by a newline: an opening Markdown fence line. -/
def fenceOpen : List Char :=
  [tick, tick, tick, Char.ofNat 106, Char.ofNat 115, Char.ofNat 111,
   Char.ofNat 110, Char.ofNat 10]

/-- A closing Markdown fence on its own line. -/
def fenceClose : List Char := [Char.ofNat 10, tick, tick, tick]

/-- Interleave the segments with bare three-backtick markers. -/
def joinTicks : List (List Char) → List Char
  | [] => []
  | [p] => p
  | p :: rest => p ++ ticks3 ++ joinTicks rest

/-- The segment does not start with a `j`/`J`, so no `/```json/gi` match can
begin at a marker directly before it. -/
def headNotJson (p : List Char) : Bool :=
  match p.head? with
  | none => true
  | some c => !(matchCI (Char.ofNat 106) c)

/-! ### Concrete fixtures used by the counterexamples and witnesses -/

/-- A judge whose `active` flag is absent (treated as active by line 197). -/
def judge7 : Judge := ⟨7, "Rubric", none, none⟩

/-- One submission, one question, one answer, one assignment to `judge7`. -/
def storeOne : StoreData :=
  ⟨[⟨1⟩], [⟨1, "Q1"⟩], [⟨1, 1, some "A", some "R"⟩], [⟨11, 1, 7, some judge7⟩]⟩

/-- A parse oracle returning a verdict outside pass/fail/inconclusive. -/
def pjMaybe : JsonParser := fun s =>
  if s = "RESP".toList then some ⟨some (.vStr "maybe"), some (.vStr "because")⟩
  else none

/-- A parse oracle returning a well-formed pass verdict. -/
def pjPass : JsonParser := fun s =>
  if s = "RESP".toList then some ⟨some (.vStr "pass"), some (.vStr "ok")⟩
  else none

/-- A parse oracle whose result lacks the `reasoning` field. -/
def pjNoReason : JsonParser := fun s =>
  if s = "RESP".toList then some ⟨some (.vStr "pass"), none⟩
  else none

/-- A concrete well-formed JSON verdict payload. -/
def innerPass : List Char :=
  "\x7b\"verdict\":\"pass\",\"reasoning\":\"ok\"\x7d".toList

/-- A parse oracle recognising exactly `innerPass`. -/
def pjFence : JsonParser := fun s =>
  if s = innerPass then some ⟨some (.vStr "pass"), some (.vStr "ok")⟩
  else none

/-- Front part of a JSON payload split by an interior fence marker. -/
def partA : List Char := "\x7b\"verdict\":\"pass\",\"reasoning\":\"a".toList

/-- Back part of a JSON payload split by an interior fence marker. -/
def partB : List Char := "b\"\x7d".toList

/-- A Gateway that always answers with the text `RESP`. -/
def envResp : Nat → LlmRequest → GatewayOutcome := fun _ _ => .returns (some "RESP")

/-- A Gateway whose calls always time out. -/
def envTimeout : Nat → LlmRequest → GatewayOutcome := fun _ _ =>
  .throws none "Request timeout"

/-- A store whose evaluation inserts always succeed. -/
def insOkEnv : Nat → Bool := fun _ => true

/-! ### Generic fold lemmas -/

theorem foldl_inv {α β : Type} {f : α → β → α} {P : α → Prop}
    (h : ∀ a b, P a → P (f a b)) :
    ∀ (l : List β) (a : α), P a → P (l.foldl f a) := by
  intro l
  induction l with
  | nil => intro a ha; exact ha
  | cons x xs ih => intro a ha; exact ih _ (h a x ha)

theorem foldl_ext {α β : Type} {f g : α → β → α}
    (h : ∀ a b, f a b = g a b) :
    ∀ (l : List β) (a : α), l.foldl f a = l.foldl g a := by
  intro l
  induction l with
  | nil => intro a; rfl
  | cons x xs ih => intro a; rw [List.foldl_cons, List.foldl_cons, h, ih]

theorem foldl_filter_id {α β : Type} {f : α → β → α} {p : β → Bool}
    (h : ∀ a b, p b = false → f a b = a) :
    ∀ (l : List β) (a : α), (l.filter p).foldl f a = l.foldl f a := by
  intro l
  induction l with
  | nil => intro a; rfl
  | cons x xs ih =>
    intro a
    by_cases hx : p x
    · rw [List.filter_cons_of_pos hx, List.foldl_cons, List.foldl_cons, ih]
    · rw [List.filter_cons_of_neg (by simpa using hx), List.foldl_cons,
        h a x (by simpa using hx), ih]

/-! ### Facts about one unit outcome folded into the state -/

theorem applyOutcome_planned (st : LoopState) (o : UnitOutcome) :
    (applyOutcome st o).planned = st.planned := by
  cases o <;> rfl

theorem applyOutcome_calls (st : LoopState) (o : UnitOutcome) :
    (applyOutcome st o).calls = st.calls := by
  cases o <;> rfl

theorem applyOutcome_count (st : LoopState) (o : UnitOutcome) :
    (applyOutcome st o).completed + (applyOutcome st o).failed =
      st.completed + st.failed + 1 := by
  cases o <;> simp [applyOutcome] <;> omega

/-- The claim-C1 invariant is preserved by one assignment step. -/
theorem stepAssignment_c1 (pj : JsonParser) (env : Nat → LlmRequest → GatewayOutcome)
    (insEnv : Nat → Bool) (now : String)
    (sub : Submission) (q : Question) (ans : Answer)
    (st : LoopState) (x : QJRow)
    (h : st.planned = st.completed + st.failed) :
    (stepAssignment pj env insEnv now sub q ans st x).planned =
      (stepAssignment pj env insEnv now sub q ans st x).completed +
      (stepAssignment pj env insEnv now sub q ans st x).failed := by
  unfold stepAssignment
  cases x.judges with
  | none => exact h
  | some judge =>
    by_cases ha : judge.active == some false
    · simp only [ha, if_true]; exact h
    · simp only [ha, if_false, Bool.false_eq_true]
      have hp := applyOutcome_planned
        { st with planned := st.planned + 1, calls := st.calls + 1 }
        (processUnit pj (env st.calls ⟨resolveModel judge,
          buildPrompt judge.system_prompt q.question_text ans.choice ans.reasoning⟩)
          (insEnv st.calls) sub.id q.id judge.id now)
      have hc := applyOutcome_count
        { st with planned := st.planned + 1, calls := st.calls + 1 }
        (processUnit pj (env st.calls ⟨resolveModel judge,
          buildPrompt judge.system_prompt q.question_text ans.choice ans.reasoning⟩)
          (insEnv st.calls) sub.id q.id judge.id now)
      simp only [] at hp hc ⊢
      omega

theorem runUnits_c1 (pj : JsonParser) (env : Nat → LlmRequest → GatewayOutcome)
    (insEnv : Nat → Bool) (now : String)
    (subs : List Submission) (questions : List Question)
    (answers : List Answer) (qj : List QJRow) :
    (runUnits pj env insEnv now subs questions answers qj).planned =
      (runUnits pj env insEnv now subs questions answers qj).completed +
      (runUnits pj env insEnv now subs questions answers qj).failed := by
  unfold runUnits
  refine foldl_inv (P := fun st => st.planned = st.completed + st.failed)
    ?_ subs initState rfl
  intro st sub h
  unfold stepSubmission
  refine foldl_inv (P := fun st => st.planned = st.completed + st.failed)
    ?_ questions st h
  intro st q h
  unfold stepQuestion
  cases answers.find? (fun a => a.submission_id == sub.id && a.question_id == q.id) with
  | none => exact h
  | some ans =>
    exact foldl_inv (P := fun st => st.planned = st.completed + st.failed)
      (fun st x h => stepAssignment_c1 pj env insEnv now sub q ans st x h) _ st h

/-- C1: for every run returning a summary, the returned counters satisfy
planned = completed + failed: each unit increments planned exactly once, then
exactly one of completed or failed. -/
theorem claim_c1_planned_split (pj : JsonParser)
    (env : Nat → LlmRequest → GatewayOutcome) (insEnv : Nat → Bool)
    (now : String) (store : StoreData) :
    (runJudges pj env insEnv now store).summary.planned =
      (runJudges pj env insEnv now store).summary.completed +
      (runJudges pj env insEnv now store).summary.failed := by
  unfold runJudges
  by_cases hs : store.submissions.isEmpty || store.questions.isEmpty ||
      store.question_judges.isEmpty
  · simp only [hs, if_true]
  · simp only [hs, if_false, Bool.false_eq_true]
    exact runUnits_c1 pj env insEnv now store.submissions store.questions
      store.answers store.question_judges

/-! ### Frame: store writes issued by the run -/

theorem applyOutcome_effects_frame (st : LoopState) (o : UnitOutcome)
    (h : st.effects.all effectFrameOk = true) :
    (applyOutcome st o).effects.all effectFrameOk = true := by
  cases o <;> simp_all [applyOutcome, List.all_append, effectFrameOk]

theorem stepAssignment_frame (pj : JsonParser) (env : Nat → LlmRequest → GatewayOutcome)
    (insEnv : Nat → Bool) (now : String)
    (sub : Submission) (q : Question) (ans : Answer)
    (st : LoopState) (x : QJRow)
    (h : st.effects.all effectFrameOk = true) :
    (stepAssignment pj env insEnv now sub q ans st x).effects.all effectFrameOk = true := by
  unfold stepAssignment
  cases x.judges with
  | none => exact h
  | some judge =>
    by_cases ha : judge.active == some false
    · simp only [ha, if_true]; exact h
    · simp only [ha, if_false, Bool.false_eq_true]
      exact applyOutcome_effects_frame _ _ h

theorem runUnits_frame (pj : JsonParser) (env : Nat → LlmRequest → GatewayOutcome)
    (insEnv : Nat → Bool) (now : String)
    (subs : List Submission) (questions : List Question)
    (answers : List Answer) (qj : List QJRow) :
    (runUnits pj env insEnv now subs questions answers qj).effects.all effectFrameOk = true := by
  unfold runUnits
  refine foldl_inv (P := fun st => st.effects.all effectFrameOk = true)
    ?_ subs initState rfl
  intro st sub h
  unfold stepSubmission
  refine foldl_inv (P := fun st => st.effects.all effectFrameOk = true)
    ?_ questions st h
  intro st q h
  unfold stepQuestion
  cases answers.find? (fun a => a.submission_id == sub.id && a.question_id == q.id) with
  | none => exact h
  | some ans =>
    exact foldl_inv (P := fun st => st.effects.all effectFrameOk = true)
      (fun st x h => stepAssignment_frame pj env insEnv now sub q ans st x h) _ st h

/-- C8: the orchestrator's only store writes are inserts into the
evaluations collection; every other collection access it issues is a read. -/
theorem claim_c8_frame (pj : JsonParser)
    (env : Nat → LlmRequest → GatewayOutcome) (insEnv : Nat → Bool)
    (now : String) (store : StoreData) :
    (runJudges pj env insEnv now store).effects.all effectFrameOk = true := by
  unfold runJudges loadEffectsOf
  by_cases hs : store.submissions.isEmpty || store.questions.isEmpty ||
      store.question_judges.isEmpty
  · simp only [hs, if_true]
    by_cases he : store.submissions.isEmpty <;>
      simp [he, List.all_append, effectFrameOk]
  · simp only [hs, if_false, Bool.false_eq_true]
    have hl := runUnits_frame pj env insEnv now store.submissions store.questions
      store.answers store.question_judges
    by_cases he : store.submissions.isEmpty <;>
      simp_all [List.all_append, effectFrameOk]

/-! ### Persisted rows carry the truthy fields the validation admitted -/

theorem processUnit_success_truthy (pj : JsonParser) (oc : GatewayOutcome)
    (insOk : Bool) (sid qid jid : Nat) (now : String) (row : EvalRow)
    (h : processUnit pj oc insOk sid qid jid now = .success row) :
    truthy row.verdict = true ∧ truthy row.reasoning = true := by
  unfold processUnit at h
  repeat' split at h
  all_goals cases h
  simp_all [Bool.and_eq_true]

theorem applyOutcome_evals_mem (st : LoopState) (o : UnitOutcome) (row : EvalRow)
    (h : row ∈ (applyOutcome st o).evals) :
    row ∈ st.evals ∨ o = .success row := by
  cases o with
  | success r =>
    have h2 : row ∈ st.evals ∨ row = r := by
      simpa [applyOutcome] using h
    rcases h2 with h1 | h1
    · exact Or.inl h1
    · subst h1; exact Or.inr rfl
  | saveFailed r => exact Or.inl h
  | failure w => exact Or.inl h

theorem stepAssignment_truthy (pj : JsonParser) (env : Nat → LlmRequest → GatewayOutcome)
    (insEnv : Nat → Bool) (now : String)
    (sub : Submission) (q : Question) (ans : Answer)
    (st : LoopState) (x : QJRow)
    (h : ∀ row ∈ st.evals, truthy row.verdict = true ∧ truthy row.reasoning = true) :
    ∀ row ∈ (stepAssignment pj env insEnv now sub q ans st x).evals,
      truthy row.verdict = true ∧ truthy row.reasoning = true := by
  unfold stepAssignment
  cases x.judges with
  | none => exact h
  | some judge =>
    by_cases ha : judge.active == some false
    · simp only [ha, if_true]; exact h
    · simp only [ha, if_false, Bool.false_eq_true]
      intro row hrow
      rcases applyOutcome_evals_mem _ _ _ hrow with hold | hsucc

      · exact h row hold
      · exact processUnit_success_truthy _ _ _ _ _ _ _ _ hsucc

theorem runUnits_truthy (pj : JsonParser) (env : Nat → LlmRequest → GatewayOutcome)
    (insEnv : Nat → Bool) (now : String)
    (subs : List Submission) (questions : List Question)
    (answers : List Answer) (qj : List QJRow) :
    ∀ row ∈ (runUnits pj env insEnv now subs questions answers qj).evals,
      truthy row.verdict = true ∧ truthy row.reasoning = true := by
  unfold runUnits
  refine foldl_inv
    (P := fun st => ∀ row ∈ st.evals,
      truthy row.verdict = true ∧ truthy row.reasoning = true)
    ?_ subs initState (by intro row hr; simp [initState] at hr)
  intro st sub h
  unfold stepSubmission
  refine foldl_inv
    (P := fun st => ∀ row ∈ st.evals,
      truthy row.verdict = true ∧ truthy row.reasoning = true)
    ?_ questions st h
  intro st q h
  unfold stepQuestion
  cases answers.find? (fun a => a.submission_id == sub.id && a.question_id == q.id) with
  | none => exact h
  | some ans =>
    exact foldl_inv
      (P := fun st => ∀ row ∈ st.evals,
        truthy row.verdict = true ∧ truthy row.reasoning = true)
      (fun st x h => stepAssignment_truthy pj env insEnv now sub q ans st x h) _ st h

/-- C3 amended: every persisted Evaluation row carries the truthy `verdict`
and `reasoning` the validation admitted; the verdict is not checked against
the three values pass/fail/inconclusive, so any truthy value is persisted. -/
theorem claim_c3_amended_truthy_fields (pj : JsonParser)
    (env : Nat → LlmRequest → GatewayOutcome) (insEnv : Nat → Bool)
    (now : String) (store : StoreData) :
    ∀ row ∈ (runJudges pj env insEnv now store).evals,
      truthy row.verdict = true ∧ truthy row.reasoning = true := by
  intro row hrow
  unfold runJudges at hrow
  by_cases hs : store.submissions.isEmpty || store.questions.isEmpty ||
      store.question_judges.isEmpty
  · simp only [hs, if_true] at hrow
    simp at hrow
  · simp only [hs, if_false, Bool.false_eq_true] at hrow
    exact runUnits_truthy pj env insEnv now _ _ _ _ row hrow

/-- Witness for the amended C3 at a concrete run. -/
theorem claim_c3_amended_truthy_fields_witness :
    truthy (JsVal.vStr "maybe") = true ∧ truthy (JsVal.vStr "because") = true :=
  claim_c3_amended_truthy_fields pjMaybe envResp insOkEnv "T" storeOne
    ⟨1, 1, 7, .vStr "maybe", .vStr "because", "T"⟩ (by decide)

/-- C3 counterexample: when the parsed response carries the truthy verdict
string "maybe", an Evaluation row is persisted whose verdict is none of
pass, fail, inconclusive — the claim that rows are only inserted for one of
the three values is false of the code. -/
theorem claim_c3_counterexample_maybe_verdict :
    ∃ row ∈ (runJudges pjMaybe envResp insOkEnv "T" storeOne).evals,
      row.verdict ≠ .vStr "pass" ∧ row.verdict ≠ .vStr "fail" ∧
      row.verdict ≠ .vStr "inconclusive" := by
  decide

/-- C2 amended: a unit whose Gateway call throws is classified by the
per-unit catch into exactly two categories — quota/rate-limit (status 429 or
a message containing quota, rate limit, or resource_exhausted,
case-insensitively) and generic — and the timeout and credentials hint
strings of the four-way `classifyGeminiError` (used only for the outer
500-response hint) never appear as per-unit warnings. -/
theorem claim_c2_amended_two_categories (pj : JsonParser) (insOk : Bool)
    (sid qid jid : Nat) (now : String) (status : Option Nat) (message : String) :
    processUnit pj (.throws status message) insOk sid qid jid now =
      .failure (if quotaCond status message then quotaW else llmFailW) ∧
    quotaW ≠ "LLM request timed out." ∧ llmFailW ≠ "LLM request timed out." ∧
    quotaW ≠ "LLM credentials or permissions issue." ∧
    llmFailW ≠ "LLM credentials or permissions issue." :=
  ⟨rfl, by decide, by decide, by decide, by decide⟩

/-- C2 counterexample: a run whose single Gateway call throws a timeout
error ends with only the generic failure warning; no timeout-category
message is produced, even though `classifyGeminiError` would classify the
same error as a timeout. -/
theorem claim_c2_counterexample_timeout_gets_generic :
    (runJudges pjMaybe envTimeout insOkEnv "T" storeOne).summary.warnings =
      [llmFailW] ∧
    "LLM request timed out." ∉
      (runJudges pjMaybe envTimeout insOkEnv "T" storeOne).summary.warnings ∧
    classifyGeminiError "Request timeout" = "LLM request timed out." := by
  decide

/-- C4: for every queue whose loaded submissions, questions, or assignments
collection is empty, the orchestrator short-circuits with zero counters, no
warnings, an explanatory note, no Gateway calls and no store writes. -/
theorem claim_c4_empty_short_circuit (pj : JsonParser)
    (env : Nat → LlmRequest → GatewayOutcome) (insEnv : Nat → Bool)
    (now : String) (store : StoreData)
    (h : store.submissions = [] ∨ store.questions = [] ∨
      store.question_judges = []) :
    (runJudges pj env insEnv now store).summary = ⟨0, 0, 0, some noteMsg, []⟩ ∧
    (runJudges pj env insEnv now store).evals = [] ∧
    (runJudges pj env insEnv now store).gwCalls = 0 ∧
    (runJudges pj env insEnv now store).effects.all isReadEffect = true := by
  have hb : (store.submissions.isEmpty || store.questions.isEmpty ||
      store.question_judges.isEmpty) = true := by
    rcases h with h | h | h <;> simp [h]
  have hrun : runJudges pj env insEnv now store =
      ⟨⟨0, 0, 0, some noteMsg, []⟩, [], loadEffectsOf store, 0⟩ := by
    unfold runJudges
    rw [if_pos hb]
  rw [hrun]
  refine ⟨rfl, rfl, rfl, ?_⟩
  unfold loadEffectsOf
  by_cases he : store.submissions.isEmpty <;>
    simp [he, isReadEffect, List.all_append]

/-- Witness for C4 at the empty store. -/
theorem claim_c4_empty_short_circuit_witness :
    (runJudges pjPass envResp insOkEnv "T" ⟨[], [], [], []⟩).summary =
      ⟨0, 0, 0, some noteMsg, []⟩ ∧
    (runJudges pjPass envResp insOkEnv "T" ⟨[], [], [], []⟩).evals = [] ∧
    (runJudges pjPass envResp insOkEnv "T" ⟨[], [], [], []⟩).gwCalls = 0 ∧
    (runJudges pjPass envResp insOkEnv "T"
      ⟨[], [], [], []⟩).effects.all isReadEffect = true :=
  claim_c4_empty_short_circuit pjPass envResp insOkEnv "T" ⟨[], [], [], []⟩
    (Or.inl rfl)

/-! ### Invalid verdict payloads -/

theorem mem_addWarning (ws : List String) (w : String) : w ∈ addWarning ws w := by
  unfold addWarning
  split
  · assumption
  · simp

/-- C7: a parsed response lacking a truthy verdict or truthy reasoning makes
the unit fail: the invalid-payload warning joins the warning set, failed is
incremented, and no Evaluation row is written. -/
theorem claim_c7_invalid_payload_fails (pj : JsonParser) (insOk : Bool)
    (sid qid jid : Nat) (now : String) (t : String) (obj : ParsedObj)
    (hraw : trimCh t.toList ≠ [])
    (hpj : pj (cleanedOf (trimCh t.toList)) = some obj)
    (hbad : truthyOpt obj.verdict = false ∨ truthyOpt obj.reasoning = false) :
    processUnit pj (.returns (some t)) insOk sid qid jid now =
      .failure invalidVerdictW ∧
    ∀ st : LoopState,
      (applyOutcome st (.failure invalidVerdictW)).failed = st.failed + 1 ∧
      (applyOutcome st (.failure invalidVerdictW)).evals = st.evals ∧
      invalidVerdictW ∈ (applyOutcome st (.failure invalidVerdictW)).warnings := by
  constructor
  · obtain ⟨ov, orr⟩ := obj
    simp only [processUnit]
    rw [if_neg hraw, hpj]
    cases ov with
    | none => rfl
    | some v =>
      cases orr with
      | none => rfl
      | some r =>
        have hf : (truthy v && truthy r) = false := by
          rcases hbad with hb | hb <;> simp [truthyOpt] at hb <;> simp [hb]
        simp [hf]
  · intro st
    exact ⟨rfl, rfl, mem_addWarning _ _⟩

/-- Witness for C7 at a concrete response whose JSON lacks `reasoning`. -/
theorem claim_c7_invalid_payload_fails_witness :
    processUnit pjNoReason (.returns (some "RESP")) true 1 2 3 "T" =
      .failure invalidVerdictW ∧
    (applyOutcome initState (.failure invalidVerdictW)).failed =
      initState.failed + 1 ∧
    (applyOutcome initState (.failure invalidVerdictW)).evals =
      initState.evals ∧
    invalidVerdictW ∈ (applyOutcome initState (.failure invalidVerdictW)).warnings :=
  ⟨(claim_c7_invalid_payload_fails pjNoReason true 1 2 3 "T" "RESP"
      ⟨some (.vStr "pass"), none⟩ (by decide) (by decide) (Or.inr rfl)).1,
   (claim_c7_invalid_payload_fails pjNoReason true 1 2 3 "T" "RESP"
      ⟨some (.vStr "pass"), none⟩ (by decide) (by decide) (Or.inr rfl)).2 initState⟩

/-! ### Laws of the global regex replace -/

theorem dropMatch_length : ∀ (pat : List CPat) (s rest : List Char),
    dropMatch pat s = some rest → rest.length + pat.length = s.length := by
  intro pat
  induction pat with
  | nil =>
    intro s rest h
    simp [dropMatch] at h
    subst h
    simp
  | cons p ps ih =>
    intro s rest h
    cases s with
    | nil => simp [dropMatch] at h
    | cons c cs =>
      unfold dropMatch at h
      by_cases hc : p c = true
      · rw [if_pos hc] at h
        have := ih cs rest h
        simp only [List.length_cons]
        omega
      · rw [if_neg hc] at h
        exact absurd h (by simp)

theorem scanRm_congr (p : CPat) (ps : List CPat) :
    ∀ (f1 f2 : Nat) (s : List Char), s.length ≤ f1 → s.length ≤ f2 →
      scanRm p ps f1 s = scanRm p ps f2 s := by
  intro f1
  induction f1 with
  | zero =>
    intro f2 s h1 h2
    have hs : s = [] := List.eq_nil_of_length_eq_zero (Nat.le_zero.mp h1)
    subst hs
    cases f2 <;> rfl
  | succ a ih =>
    intro f2 s h1 h2
    cases s with
    | nil => cases f2 <;> rfl
    | cons c cs =>
      cases f2 with
      | zero => simp at h2
      | succ b =>
        simp only [scanRm]
        cases hdm : dropMatch (p :: ps) (c :: cs) with
        | some rest =>
          have hlen := dropMatch_length (p :: ps) (c :: cs) rest hdm
          simp only [List.length_cons] at hlen h1 h2
          exact ih b rest (by omega) (by omega)
        | none =>
          simp only [List.length_cons] at h1 h2
          rw [ih b cs (by omega) (by omega)]

theorem removeAll_fuel (p : CPat) (ps : List CPat) (fuel : Nat) (s : List Char)
    (h : s.length ≤ fuel) : scanRm p ps fuel s = removeAll p ps s :=
  scanRm_congr p ps fuel s.length s h le_rfl

theorem removeAll_cons_none (p : CPat) (ps : List CPat) (c : Char) (cs : List Char)
    (h : dropMatch (p :: ps) (c :: cs) = none) :
    removeAll p ps (c :: cs) = c :: removeAll p ps cs := by
  unfold removeAll
  have h1 : (c :: cs).length = cs.length + 1 := rfl
  rw [h1]
  simp only [scanRm, h]

theorem removeAll_cons_some (p : CPat) (ps : List CPat) (c : Char)
    (cs rest : List Char) (h : dropMatch (p :: ps) (c :: cs) = some rest) :
    removeAll p ps (c :: cs) = removeAll p ps rest := by
  have hlen := dropMatch_length (p :: ps) (c :: cs) rest h
  simp only [List.length_cons] at hlen
  unfold removeAll
  have h1 : (c :: cs).length = cs.length + 1 := rfl
  rw [h1]
  simp only [scanRm, h]
  exact removeAll_fuel p ps cs.length rest (by omega)

theorem removeAll_skip (p : CPat) (ps : List CPat) :
    ∀ (a s : List Char), (∀ c ∈ a, p c = false) →
      removeAll p ps (a ++ s) = a ++ removeAll p ps s := by
  intro a
  induction a with
  | nil => intro s _; simp
  | cons c a0 ih =>
    intro s h
    have hc : p c = false := h c (List.mem_cons_self c a0)
    have hd : dropMatch (p :: ps) (c :: (a0 ++ s)) = none := by
      simp [dropMatch, hc]
    rw [List.cons_append, removeAll_cons_none p ps c (a0 ++ s) hd,
      ih s (fun x hx => h x (List.mem_cons_of_mem c hx)), List.cons_append]

/-- A segment with no backtick passes through any pass whose pattern starts
with `matchTick`. -/
theorem removeAll_tickfree (ps : List CPat) (a s : List Char) (ha : tick ∉ a) :
    removeAll matchTick ps (a ++ s) = a ++ removeAll matchTick ps s :=
  removeAll_skip matchTick ps a s (fun c hc => by
    have hne : ¬(c = tick) := fun h => ha (h ▸ hc)
    simp [matchTick, hne])

/-! ### Laws of trimming -/

theorem dropWhileNot (q : Char → Bool) (l : List Char)
    (h : ∀ c, l.head? = some c → q c = false) : l.dropWhile q = l := by
  cases l with
  | nil => rfl
  | cons c cs => simp [List.dropWhile_cons, h c rfl]

theorem trimCh_eq_self (l : List Char)
    (hh : ∀ c, l.head? = some c → isWs c = false)
    (hl : ∀ c, l.getLast? = some c → isWs c = false) : trimCh l = l := by
  unfold trimCh
  rw [dropWhileNot isWs l hh]
  rw [dropWhileNot isWs l.reverse
    (fun c hc => hl c (by rwa [List.head?_reverse] at hc))]
  exact List.reverse_reverse l

theorem trimCh_cons_ws (c : Char) (s : List Char) (h : isWs c = true) :
    trimCh (c :: s) = trimCh s := by
  unfold trimCh
  rw [List.dropWhile_cons, if_pos h]

theorem trimCh_append_ws (s : List Char) (c : Char) (h : isWs c = true) :
    trimCh (s ++ [c]) = trimCh s := by
  unfold trimCh
  rw [List.dropWhile_append]
  by_cases he : (s.dropWhile isWs).isEmpty
  · rw [if_pos he]
    have h1 : List.dropWhile isWs [c] = [] := by
      simp [List.dropWhile_cons, h]
    have h2 : s.dropWhile isWs = [] := by
      simpa [List.isEmpty_iff] using he
    rw [h1, h2]
  · rw [if_neg he]
    rw [List.reverse_append]
    have h3 : ([c].reverse ++ (s.dropWhile isWs).reverse) =
        c :: (s.dropWhile isWs).reverse := rfl
    rw [h3, List.dropWhile_cons, if_pos h]

/-! ### Behaviour of the two replace passes around fence markers -/

theorem dropMatch_head_false (p : CPat) (ps : List CPat) (c : Char)
    (cs : List Char) (hc : p c = false) : dropMatch (p :: ps) (c :: cs) = none := by
  simp [dropMatch, hc]

theorem removeAll_cons_nontick (ps : List CPat) (c : Char) (cs : List Char)
    (hc : c ≠ tick) :
    removeAll matchTick ps (c :: cs) = c :: removeAll matchTick ps cs :=
  removeAll_cons_none matchTick ps c cs
    (dropMatch_head_false _ _ _ _ (by simp [matchTick, hc]))

theorem dropMatch_jsonOpen (X : List Char) :
    dropMatch (matchTick :: jsonFenceTail) (fenceOpen ++ X) =
      some (Char.ofNat 10 :: X) := by
  have e1 : matchTick tick = true := by decide
  have ej : matchCI (Char.ofNat 106) (Char.ofNat 106) = true := by decide
  have es : matchCI (Char.ofNat 115) (Char.ofNat 115) = true := by decide
  have eo : matchCI (Char.ofNat 111) (Char.ofNat 111) = true := by decide
  have en : matchCI (Char.ofNat 110) (Char.ofNat 110) = true := by decide
  simp [fenceOpen, jsonFenceTail, dropMatch, e1, ej, es, eo, en]

/-- Consuming the opening fence line: the `/```json/gi` pass deletes the
leading marker and goes on scanning from the newline. -/
theorem removeAll_json_open (X : List Char) :
    removeAll matchTick jsonFenceTail (fenceOpen ++ X) =
      removeAll matchTick jsonFenceTail (Char.ofNat 10 :: X) :=
  removeAll_cons_some matchTick jsonFenceTail tick
    ([tick, tick, Char.ofNat 106, Char.ofNat 115, Char.ofNat 111,
      Char.ofNat 110, Char.ofNat 10] ++ X)
    (Char.ofNat 10 :: X) (dropMatch_jsonOpen X)

/-- The full sanitisation of a response wrapped in Markdown ```json fences:
both markers are deleted and the remaining text trimmed. -/
theorem cleanedOf_fenced (inner : List Char) (ht : tick ∉ inner) :
    cleanedOf (fenceOpen ++ (inner ++ fenceClose)) = trimCh inner := by
  have hnl : (Char.ofNat 10) ≠ tick := by decide
  have hwnl : isWs (Char.ofNat 10) = true := by decide
  have p1 : removeAll matchTick jsonFenceTail (fenceOpen ++ (inner ++ fenceClose)) =
      Char.ofNat 10 :: (inner ++ fenceClose) := by
    rw [removeAll_json_open, removeAll_cons_nontick _ _ _ hnl,
      removeAll_tickfree _ inner fenceClose ht,
      show removeAll matchTick jsonFenceTail fenceClose = fenceClose from by decide]
  have p2 : removeAll matchTick bareFenceTail (Char.ofNat 10 :: (inner ++ fenceClose)) =
      Char.ofNat 10 :: (inner ++ [Char.ofNat 10]) := by
    rw [removeAll_cons_nontick _ _ _ hnl,
      removeAll_tickfree _ inner fenceClose ht,
      show removeAll matchTick bareFenceTail fenceClose = [Char.ofNat 10] from by decide]
  unfold cleanedOf
  rw [p1, p2, trimCh_cons_ws _ _ hwnl, trimCh_append_ws _ _ hwnl]

/-- C5: a Gateway response that is the JSON payload wrapped in Markdown
```json fences has its markers stripped and text trimmed before parsing,
and the unit completes with an Evaluation row written when the inner JSON
parses with truthy verdict and reasoning and the store write succeeds. -/
theorem claim_c5_fenced_response_completes (pj : JsonParser)
    (sid qid jid : Nat) (now : String) (inner : List Char) (v r : JsVal)
    (ht : tick ∉ inner)
    (hpj : pj (trimCh inner) = some ⟨some v, some r⟩)
    (htv : truthy v = true) (htr : truthy r = true) :
    processUnit pj (.returns (some (String.mk (fenceOpen ++ (inner ++ fenceClose)))))
        true sid qid jid now = .success ⟨sid, qid, jid, v, r, now⟩ ∧
    ∀ st : LoopState,
      (applyOutcome st (.success ⟨sid, qid, jid, v, r, now⟩)).completed =
        st.completed + 1 ∧
      (applyOutcome st (.success ⟨sid, qid, jid, v, r, now⟩)).evals =
        st.evals ++ [⟨sid, qid, jid, v, r, now⟩] := by
  have htrim : trimCh (fenceOpen ++ (inner ++ fenceClose)) =
      fenceOpen ++ (inner ++ fenceClose) := by
    apply trimCh_eq_self
    · intro c hc
      have hh : (fenceOpen ++ (inner ++ fenceClose)).head? = some tick := rfl
      rw [hh] at hc
      injection hc with hc2
      rw [← hc2]
      decide
    · intro c hc
      have hl : (fenceOpen ++ (inner ++ fenceClose)).getLast? = some tick := by
        rw [show fenceOpen ++ (inner ++ fenceClose) =
          (fenceOpen ++ (inner ++ [Char.ofNat 10, tick, tick])) ++ [tick] from by
            simp [fenceClose, List.append_assoc]]
        exact List.getLast?_concat _
      rw [hl] at hc
      injection hc with hc2
      rw [← hc2]
      decide
  have hne : fenceOpen ++ (inner ++ fenceClose) ≠ [] := by
    simp [fenceOpen]
  constructor
  · simp only [processUnit]
    rw [show (String.mk (fenceOpen ++ (inner ++ fenceClose))).toList =
      fenceOpen ++ (inner ++ fenceClose) from rfl]
    rw [htrim, if_neg hne, cleanedOf_fenced inner ht, hpj]
    simp [htv, htr]
  · intro st
    exact ⟨rfl, rfl⟩

/-- Witness for C5: a concrete fenced pass/ok payload completes. -/
theorem claim_c5_fenced_response_completes_witness :
    processUnit pjFence
        (.returns (some (String.mk (fenceOpen ++ (innerPass ++ fenceClose)))))
        true 1 2 3 "T" =
      .success ⟨1, 2, 3, .vStr "pass", .vStr "ok", "T"⟩ ∧
    (applyOutcome initState
      (.success ⟨1, 2, 3, .vStr "pass", .vStr "ok", "T"⟩)).completed =
      initState.completed + 1 ∧
    (applyOutcome initState
      (.success ⟨1, 2, 3, .vStr "pass", .vStr "ok", "T"⟩)).evals =
      initState.evals ++ [⟨1, 2, 3, .vStr "pass", .vStr "ok", "T"⟩] :=
  ⟨(claim_c5_fenced_response_completes pjFence 1 2 3 "T" innerPass
      (.vStr "pass") (.vStr "ok") (by decide) (by decide) (by decide) (by decide)).1,
   (claim_c5_fenced_response_completes pjFence 1 2 3 "T" innerPass
      (.vStr "pass") (.vStr "ok") (by decide) (by decide) (by decide) (by decide)).2
     initState⟩

/-! ### The replace passes delete markers anywhere in the text -/

theorem jsonPat_skip_ticks (s : List Char)
    (hs : ∀ c, s.head? = some c →
      matchTick c = false ∧ matchCI (Char.ofNat 106) c = false) :
    removeAll matchTick jsonFenceTail (ticks3 ++ s) =
      ticks3 ++ removeAll matchTick jsonFenceTail s := by
  cases s with
  | nil =>
    rw [List.append_nil]
    rw [show removeAll matchTick jsonFenceTail ([] : List Char) = [] from rfl,
      List.append_nil]
    decide
  | cons c cs =>
    obtain ⟨h1, h2⟩ := hs c rfl
    have e1 : matchTick tick = true := by decide
    have hd1 : dropMatch (matchTick :: jsonFenceTail)
        (tick :: tick :: tick :: c :: cs) = none := by
      simp [dropMatch, jsonFenceTail, e1, h1, h2]
    have hd2 : dropMatch (matchTick :: jsonFenceTail)
        (tick :: tick :: c :: cs) = none := by
      simp [dropMatch, jsonFenceTail, e1, h1]
    have hd3 : dropMatch (matchTick :: jsonFenceTail)
        (tick :: c :: cs) = none := by
      simp [dropMatch, jsonFenceTail, e1, h1]
    show removeAll matchTick jsonFenceTail (tick :: tick :: tick :: c :: cs) = _
    rw [removeAll_cons_none _ _ _ _ hd1, removeAll_cons_none _ _ _ _ hd2,
      removeAll_cons_none _ _ _ _ hd3]
    rfl

theorem barePat_consume (s : List Char) :
    removeAll matchTick bareFenceTail (ticks3 ++ s) =
      removeAll matchTick bareFenceTail s := by
  have e1 : matchTick tick = true := by decide
  have hd : dropMatch (matchTick :: bareFenceTail)
      (tick :: tick :: tick :: s) = some s := by
    simp [dropMatch, bareFenceTail, e1]
  exact removeAll_cons_some matchTick bareFenceTail tick (tick :: tick :: s) s hd

theorem joinTicks_single (p : List Char) : joinTicks [p] = p := rfl

theorem joinTicks_cons_cons (p q : List Char) (rest2 : List (List Char)) :
    joinTicks (p :: q :: rest2) = p ++ (ticks3 ++ joinTicks (q :: rest2)) := by
  simp [joinTicks]

theorem joinTicks_head (q : List Char) (rest : List (List Char)) (hq : q ≠ []) :
    (joinTicks (q :: rest)).head? = q.head? := by
  cases rest with
  | nil => rfl
  | cons r2 rest2 =>
    rw [joinTicks_cons_cons]
    cases q with
    | nil => exact absurd rfl hq
    | cons c q0 => rfl

theorem joinTicks_json_pass (parts : List (List Char))
    (hp : ∀ p ∈ parts, tick ∉ p ∧ p ≠ [] ∧ headNotJson p = true) :
    removeAll matchTick jsonFenceTail (joinTicks parts) = joinTicks parts := by
  induction parts with
  | nil => rfl
  | cons p rest ih =>
    obtain ⟨hpt, hpn, hpnj⟩ := hp p (List.mem_cons_self p rest)
    cases rest with
    | nil =>
      rw [joinTicks_single]
      have h0 := removeAll_tickfree jsonFenceTail p [] hpt
      rw [List.append_nil,
        show removeAll matchTick jsonFenceTail ([] : List Char) = [] from rfl,
        List.append_nil] at h0
      exact h0
    | cons q rest2 =>
      have hq := hp q (List.mem_cons_of_mem p (List.mem_cons_self q rest2))
      rw [joinTicks_cons_cons]
      rw [removeAll_tickfree _ p _ hpt]
      rw [jsonPat_skip_ticks (joinTicks (q :: rest2)) ?hhead]
      · rw [ih (fun x hx => hp x (List.mem_cons_of_mem p hx))]
      case hhead =>
        intro c hc
        rw [joinTicks_head q rest2 hq.2.1] at hc
        constructor
        · have hcq : c ∈ q := List.mem_of_mem_head? (by simp [hc])
          have hne : ¬(c = tick) := fun h => hq.1 (h ▸ hcq)
          simp [matchTick, hne]
        · have hnj := hq.2.2
          unfold headNotJson at hnj
          rw [hc] at hnj
          simpa using hnj

theorem joinTicks_bare_pass (parts : List (List Char))
    (hp : ∀ p ∈ parts, tick ∉ p) :
    removeAll matchTick bareFenceTail (joinTicks parts) = parts.flatten := by
  induction parts with
  | nil => rfl
  | cons p rest ih =>
    cases rest with
    | nil =>
      rw [joinTicks_single]
      have h0 := removeAll_tickfree bareFenceTail p []
        (hp p (List.mem_cons_self p []))
      rw [List.append_nil,
        show removeAll matchTick bareFenceTail ([] : List Char) = [] from rfl,
        List.append_nil] at h0
      simpa using h0
    | cons q rest2 =>
      rw [joinTicks_cons_cons,
        removeAll_tickfree _ p _ (hp p (List.mem_cons_self p (q :: rest2))),
        barePat_consume,
        ih (fun x hx => hp x (List.mem_cons_of_mem p hx))]
      simp

/-- C9: the sanitisation removes every occurrence of the ``` marker
anywhere in the response text, not only leading or trailing fences: for any
segments free of backticks (none starting with a `j`, which would form a
```json marker), the markers separating them — including those inside the
JSON payload — are all deleted and the concatenation is trimmed. -/
theorem claim_c9_markers_removed_everywhere (parts : List (List Char))
    (hp : ∀ p ∈ parts, tick ∉ p ∧ p ≠ [] ∧ headNotJson p = true) :
    cleanedOf (joinTicks parts) = trimCh parts.flatten := by
  unfold cleanedOf
  rw [joinTicks_json_pass parts hp,
    joinTicks_bare_pass parts (fun p hp2 => (hp p hp2).1)]

/-- Witness for C9: a ``` sequence inside a JSON string value is deleted
from inside the payload by the sanitisation. -/
theorem claim_c9_markers_removed_everywhere_witness :
    cleanedOf (joinTicks [partA, partB]) =
      "\x7b\"verdict\":\"pass\",\"reasoning\":\"ab\"\x7d".toList := by
  rw [claim_c9_markers_removed_everywhere [partA, partB] (by decide)]
  decide

/-! ### Assignments with a missing or inactive judge are no-ops -/

theorem stepAssignment_skip (pj : JsonParser) (env : Nat → LlmRequest → GatewayOutcome)
    (insEnv : Nat → Bool) (now : String) (sub : Submission) (q : Question)
    (ans : Answer) (st : LoopState) (x : QJRow) (hx : keepJudge x = false) :
    stepAssignment pj env insEnv now sub q ans st x = st := by
  unfold stepAssignment
  unfold keepJudge at hx
  cases hj : x.judges with
  | none => rfl
  | some j =>
    rw [hj] at hx
    simp at hx
    simp [hx]

theorem stepAssignment_keep_planned (pj : JsonParser)
    (env : Nat → LlmRequest → GatewayOutcome) (insEnv : Nat → Bool)
    (now : String) (sub : Submission) (q : Question) (ans : Answer)
    (st : LoopState) (x : QJRow) (hx : keepJudge x = true) :
    (stepAssignment pj env insEnv now sub q ans st x).planned = st.planned + 1 := by
  unfold stepAssignment
  unfold keepJudge at hx
  cases hj : x.judges with
  | none => rw [hj] at hx; simp at hx
  | some j =>
    rw [hj] at hx
    simp only [Bool.not_eq_true'] at hx
    simp only [hx, if_false, Bool.false_eq_true]
    rw [applyOutcome_planned]

theorem foldAssignments_planned (pj : JsonParser)
    (env : Nat → LlmRequest → GatewayOutcome) (insEnv : Nat → Bool)
    (now : String) (sub : Submission) (q : Question) (ans : Answer) :
    ∀ (assigned : List QJRow) (st : LoopState),
      ((assigned.foldl (stepAssignment pj env insEnv now sub q ans) st).planned =
        st.planned + (assigned.filter keepJudge).length) := by
  intro assigned
  induction assigned with
  | nil => intro st; simp
  | cons x xs ih =>
    intro st
    rw [List.foldl_cons]
    by_cases hx : keepJudge x = true
    · rw [ih, stepAssignment_keep_planned pj env insEnv now sub q ans st x hx,
        List.filter_cons_of_pos hx, List.length_cons]
      omega
    · have hx0 : keepJudge x = false := by
        simpa using hx
      rw [stepAssignment_skip pj env insEnv now sub q ans st x hx0,
        List.filter_cons_of_neg (by simp [hx0]), ih]

theorem stepQuestion_planned (pj : JsonParser)
    (env : Nat → LlmRequest → GatewayOutcome) (insEnv : Nat → Bool)
    (now : String) (answers : List Answer) (qj : List QJRow)
    (sub : Submission) (st : LoopState) (q : Question) :
    (stepQuestion pj env insEnv now answers qj sub st q).planned =
      st.planned +
      (match answers.find?
          (fun a => a.submission_id == sub.id && a.question_id == q.id) with
        | none => 0
        | some _ =>
          ((qj.filter (fun x => x.question_id == q.id)).filter keepJudge).length) := by
  unfold stepQuestion
  cases answers.find? (fun a => a.submission_id == sub.id && a.question_id == q.id) with
  | none => simp
  | some ans => exact foldAssignments_planned pj env insEnv now sub q ans _ st

theorem foldQuestions_planned (pj : JsonParser)
    (env : Nat → LlmRequest → GatewayOutcome) (insEnv : Nat → Bool)
    (now : String) (answers : List Answer) (qj : List QJRow) (sub : Submission) :
    ∀ (qs : List Question) (st : LoopState),
      ((qs.foldl (stepQuestion pj env insEnv now answers qj sub) st).planned =
        st.planned +
        (qs.map (fun q =>
          match answers.find?
              (fun a => a.submission_id == sub.id && a.question_id == q.id) with
            | none => 0
            | some _ =>
              ((qj.filter (fun x => x.question_id == q.id)).filter
                keepJudge).length)).sum) := by
  intro qs
  induction qs with
  | nil => intro st; simp
  | cons q qs0 ih =>
    intro st
    rw [List.foldl_cons, ih, stepQuestion_planned, List.map_cons, List.sum_cons]
    omega

theorem runUnits_planned (pj : JsonParser)
    (env : Nat → LlmRequest → GatewayOutcome) (insEnv : Nat → Bool)
    (now : String) (subs : List Submission) (qs : List Question)
    (answers : List Answer) (qj : List QJRow) :
    (runUnits pj env insEnv now subs qs answers qj).planned =
      plannedCount subs qs answers qj := by
  have key : ∀ (ss : List Submission) (st : LoopState),
      ((ss.foldl (stepSubmission pj env insEnv now qs answers qj) st).planned =
        st.planned +
        (ss.map (fun sub =>
          (qs.map (fun q =>
            match answers.find?
                (fun a => a.submission_id == sub.id && a.question_id == q.id) with
              | none => 0
              | some _ =>
                ((qj.filter (fun x => x.question_id == q.id)).filter
                  keepJudge).length)).sum)).sum) := by
    intro ss
    induction ss with
    | nil => intro st; simp
    | cons s ss0 ih =>
      intro st
      rw [List.foldl_cons, ih]
      unfold stepSubmission
      rw [foldQuestions_planned, List.map_cons, List.sum_cons]
      omega
  unfold runUnits plannedCount
  rw [key subs initState]
  simp [initState]

theorem stepQuestion_filterJudge (pj : JsonParser)
    (env : Nat → LlmRequest → GatewayOutcome) (insEnv : Nat → Bool)
    (now : String) (answers : List Answer) (qj : List QJRow)
    (sub : Submission) (st : LoopState) (q : Question) :
    stepQuestion pj env insEnv now answers (qj.filter keepJudge) sub st q =
      stepQuestion pj env insEnv now answers qj sub st q := by
  unfold stepQuestion
  have hcomm : (qj.filter keepJudge).filter (fun x => x.question_id == q.id) =
      (qj.filter (fun x => x.question_id == q.id)).filter keepJudge := by
    rw [List.filter_filter, List.filter_filter]
    exact List.filter_congr (fun x _ => by rw [Bool.and_comm])
  rw [hcomm]
  cases answers.find? (fun a => a.submission_id == sub.id && a.question_id == q.id) with
  | none => rfl
  | some ans =>
    exact foldl_filter_id
      (fun st x hx => stepAssignment_skip pj env insEnv now sub q ans st x hx) _ st

theorem runUnits_filterJudge (pj : JsonParser)
    (env : Nat → LlmRequest → GatewayOutcome) (insEnv : Nat → Bool)
    (now : String) (subs : List Submission) (qs : List Question)
    (answers : List Answer) (qj : List QJRow) :
    runUnits pj env insEnv now subs qs answers (qj.filter keepJudge) =
      runUnits pj env insEnv now subs qs answers qj := by
  unfold runUnits
  refine foldl_ext ?_ subs initState
  intro st sub
  unfold stepSubmission
  exact foldl_ext
    (fun st q => stepQuestion_filterJudge pj env insEnv now answers qj sub st q)
    qs st

/-- C6: assignments whose joined judge is missing or whose active flag is
explicitly false contribute zero units of work — removing them changes
nothing about the run (counters, Gateway calls, warnings, rows, effects) —
and planned counts exactly the assignments kept by `keepJudge`, which treats
an absent active flag as active. -/
theorem claim_c6_inactive_judges_excluded (pj : JsonParser)
    (env : Nat → LlmRequest → GatewayOutcome) (insEnv : Nat → Bool)
    (now : String) (subs : List Submission) (qs : List Question)
    (answers : List Answer) (qj : List QJRow) :
    runUnits pj env insEnv now subs qs answers (qj.filter keepJudge) =
      runUnits pj env insEnv now subs qs answers qj ∧
    (runUnits pj env insEnv now subs qs answers qj).planned =
      plannedCount subs qs answers qj :=
  ⟨runUnits_filterJudge pj env insEnv now subs qs answers qj,
   runUnits_planned pj env insEnv now subs qs answers qj⟩

/-! ### Duplicate assignment rows each form their own unit of work -/

theorem applyOutcome_evlen (st : LoopState) (o : UnitOutcome)
    (h : st.evals.length = st.completed) :
    (applyOutcome st o).evals.length = (applyOutcome st o).completed := by
  cases o <;> simp [applyOutcome, h]

theorem stepAssignment_calls_evlen (pj : JsonParser)
    (env : Nat → LlmRequest → GatewayOutcome) (insEnv : Nat → Bool)
    (now : String) (sub : Submission) (q : Question) (ans : Answer)
    (st : LoopState) (x : QJRow)
    (h : st.calls = st.planned ∧ st.evals.length = st.completed) :
    (stepAssignment pj env insEnv now sub q ans st x).calls =
      (stepAssignment pj env insEnv now sub q ans st x).planned ∧
    (stepAssignment pj env insEnv now sub q ans st x).evals.length =
      (stepAssignment pj env insEnv now sub q ans st x).completed := by
  obtain ⟨h1, h2⟩ := h
  unfold stepAssignment
  cases x.judges with
  | none => exact ⟨h1, h2⟩
  | some judge =>
    by_cases ha : judge.active == some false
    · simp only [ha, if_true]; exact ⟨h1, h2⟩
    · simp only [ha, if_false, Bool.false_eq_true]
      constructor
      · rw [applyOutcome_calls, applyOutcome_planned]
        simp only []
        omega
      · exact applyOutcome_evlen _ _ h2

theorem runUnits_calls_evlen (pj : JsonParser)
    (env : Nat → LlmRequest → GatewayOutcome) (insEnv : Nat → Bool)
    (now : String) (subs : List Submission) (qs : List Question)
    (answers : List Answer) (qj : List QJRow) :
    (runUnits pj env insEnv now subs qs answers qj).calls =
      (runUnits pj env insEnv now subs qs answers qj).planned ∧
    (runUnits pj env insEnv now subs qs answers qj).evals.length =
      (runUnits pj env insEnv now subs qs answers qj).completed := by
  unfold runUnits
  refine foldl_inv
    (P := fun st => st.calls = st.planned ∧ st.evals.length = st.completed)
    ?_ subs initState ⟨rfl, rfl⟩
  intro st sub h
  unfold stepSubmission
  refine foldl_inv
    (P := fun st => st.calls = st.planned ∧ st.evals.length = st.completed)
    ?_ qs st h
  intro st q h
  unfold stepQuestion
  cases answers.find? (fun a => a.submission_id == sub.id && a.question_id == q.id) with
  | none => exact h
  | some ans =>
    exact foldl_inv
      (P := fun st => st.calls = st.planned ∧ st.evals.length = st.completed)
      (fun st x h => stepAssignment_calls_evlen pj env insEnv now sub q ans st x h)
      _ st h

theorem questionSum_append (s : Submission) (qs : List Question)
    (answers : List Answer) (qj qj2 : List QJRow) :
    (qs.map (fun q =>
      match answers.find?
          (fun (a : Answer) => a.submission_id == s.id && a.question_id == q.id) with
        | none => 0
        | some _ =>
          (((qj ++ qj2).filter (fun (x : QJRow) => x.question_id == q.id)).filter
            keepJudge).length)).sum =
    (qs.map (fun q =>
      match answers.find?
          (fun (a : Answer) => a.submission_id == s.id && a.question_id == q.id) with
        | none => 0
        | some _ =>
          ((qj.filter (fun (x : QJRow) => x.question_id == q.id)).filter
            keepJudge).length)).sum +
    (qs.map (fun q =>
      match answers.find?
          (fun (a : Answer) => a.submission_id == s.id && a.question_id == q.id) with
        | none => 0
        | some _ =>
          ((qj2.filter (fun (x : QJRow) => x.question_id == q.id)).filter
            keepJudge).length)).sum := by
  induction qs with
  | nil => rfl
  | cons q qs0 ihq =>
    simp only [List.map_cons, List.sum_cons]
    rw [ihq]
    cases answers.find?
        (fun (a : Answer) => a.submission_id == s.id && a.question_id == q.id) with
    | none => simp
    | some a =>
      simp only [List.filter_append, List.length_append]
      ring

/-- Appending further assignment rows — duplicates included — adds their
full planned contribution again: the plan counts rows, never de-duplicating
by judge and question. -/
theorem plannedCount_append (subs : List Submission) (qs : List Question)
    (answers : List Answer) (qj qj2 : List QJRow) :
    plannedCount subs qs answers (qj ++ qj2) =
      plannedCount subs qs answers qj + plannedCount subs qs answers qj2 := by
  unfold plannedCount
  induction subs with
  | nil => rfl
  | cons s subs0 ih =>
    simp only [List.map_cons, List.sum_cons]
    rw [ih, questionSum_append s qs answers qj qj2]
    omega

/-- C10: for every assignment collection, duplicate rows linking the same
judge to the same question are separate units of work: planned counts every
row individually — appending duplicate rows adds their full contribution
again, once per submission with an answer to the matching question —
exactly one Gateway call is made per planned unit, and each completed unit
appends its own Evaluation row. -/
theorem claim_c10_duplicate_assignments (pj : JsonParser)
    (env : Nat → LlmRequest → GatewayOutcome) (insEnv : Nat → Bool)
    (now : String) (subs : List Submission) (qs : List Question)
    (answers : List Answer) (qj qj2 : List QJRow) :
    (runUnits pj env insEnv now subs qs answers qj).planned =
      plannedCount subs qs answers qj ∧
    plannedCount subs qs answers (qj ++ qj2) =
      plannedCount subs qs answers qj + plannedCount subs qs answers qj2 ∧
    (runUnits pj env insEnv now subs qs answers qj).calls =
      (runUnits pj env insEnv now subs qs answers qj).planned ∧
    (runUnits pj env insEnv now subs qs answers qj).evals.length =
      (runUnits pj env insEnv now subs qs answers qj).completed :=
  ⟨runUnits_planned pj env insEnv now subs qs answers qj,
   plannedCount_append subs qs answers qj qj2,
   (runUnits_calls_evlen pj env insEnv now subs qs answers qj).1,
   (runUnits_calls_evlen pj env insEnv now subs qs answers qj).2⟩

end AiJudge
